import Mathlib

/-!
Verification of the AGILITY code-review service (`code-review-service/app`).

This file shallowly embeds the parts of the service needed to settle the
frozen claims: the domain models (`app/models/domain.py`), the graph store
(`app/graph/store.py`, an in-memory `networkx.DiGraph`), graph retrieval
(`app/graph/retrieval.py`), the Python symbol extractor
(`app/ast_/python_extractor.py`), the semantic differ
(`app/ast_/python_differ.py`), the graph builder
(`app/graph/python_builder.py`), the LLM finding parser
(`app/llm/orchestrator.py`), and the review pipeline
(`app/services/pipeline.py`).

Conventions: Python dicts become insertion-ordered association lists with
in-place update on existing keys; Python float scores become exact
rationals (all constants in the source are short decimal literals);
fallible code becomes `Except`/`Option`; I/O boundaries (git provider,
filesystem, LLM client) become explicit inputs.
-/

namespace CodeReview

/-! ## Domain models (`app/models/domain.py`) -/

/-- `SymbolKind`: kind of symbol in the code graph (declaration order as in
`domain.py`). -/
inductive SymbolKind where
  | module
  | function
  | «class»
  | method
  | constant
  | test
deriving DecidableEq, Repr, BEq

/-- `ChangeType`: type of symbol-level change. -/
inductive ChangeType where
  | added
  | removed
  | modified
deriving DecidableEq, Repr, BEq

/-- `EdgeType`: type of edge in the repository graph (declaration order as in
`domain.py`; Python iterates an Enum in declaration order). -/
inductive EdgeType where
  | calls
  | imports
  | inherits
  | tests
  | usesConfig
deriving DecidableEq, Repr, BEq

/-- The members of `EdgeType` in Python declaration order, as yielded by
`for edge_type in EdgeType`. -/
def EdgeType.all : List EdgeType :=
  [.calls, .imports, .inherits, .tests, .usesConfig]

/-! ## Insertion-ordered dictionaries

Python `dict` semantics: assignment to an existing key replaces the value in
place (keeping the key's position); assignment to a new key appends. -/

/-- Lookup in an association list (first match). -/
def alookup {α β : Type} [DecidableEq α] : List (α × β) → α → Option β
  | [], _ => none
  | (k, v) :: rest, key => if k = key then some v else alookup rest key

/-- `d[k] = v` on a Python dict: replace in place if the key exists,
otherwise append. -/
def dictInsert {α β : Type} [DecidableEq α] : List (α × β) → α → β → List (α × β)
  | [], k, v => [(k, v)]
  | (k0, v0) :: rest, k, v =>
      if k0 = k then (k0, v) :: rest else (k0, v0) :: dictInsert rest k v

/-- The keys of an association list, in order. -/
def dictKeys {α β : Type} (m : List (α × β)) : List α := m.map Prod.fst

/-! ## Graph store (`app/graph/store.py`)

`GraphStore` wraps `nx.DiGraph` (a *simple* directed graph: at most one edge
per ordered node pair; `add_edge` on an existing pair updates its attribute
dict) plus an insertion-ordered `_nodes` dict. -/

/-- The `extra` metadata dict placed on graph nodes. Only the keys actually
used by the code (`is_test_file`, `line_start`, `line_end`, `parent_class`)
are modelled; an absent key is the default. -/
structure NodeExtra where
  isTestFile : Bool := false
  lineStart : Option Nat := none
  lineEnd : Option Nat := none
  parentClass : Option String := none
deriving DecidableEq, Repr

/-- `GraphNode` from `domain.py`. -/
structure GraphNode where
  id : String
  kind : SymbolKind
  language : String := "python"
  filePath : String
  symbolName : String
  extra : NodeExtra := {}
deriving DecidableEq, Repr

/-- `GraphEdge` from `domain.py` (the `extra` dict is never read by the code
under verification and is omitted). -/
structure GraphEdge where
  srcId : String
  dstId : String
  type : EdgeType
deriving DecidableEq, Repr

/-- The graph store state: the `_nodes` dict and the `nx.DiGraph` edge set
(insertion-ordered, at most one entry per `(src, dst)` pair by
construction). -/
structure GraphStore where
  nodes : List (String × GraphNode) := []
  edges : List GraphEdge := []
deriving Repr

/-- `GraphStore.add_node`. -/
def GraphStore.addNode (st : GraphStore) (node : GraphNode) : GraphStore :=
  { st with nodes := dictInsert st.nodes node.id node }

/-- `nx.DiGraph.add_edge` on the edge list: if an edge with the same
endpoints exists its attributes are updated in place (here: the `type`),
otherwise the edge is appended. -/
def updateEdgeList : List GraphEdge → GraphEdge → List GraphEdge
  | [], e => [e]
  | e0 :: rest, e =>
      if e0.srcId = e.srcId ∧ e0.dstId = e.dstId then
        { e0 with type := e.type } :: rest
      else
        e0 :: updateEdgeList rest e

/-- `GraphStore.add_edge`: only inserted when both endpoints are known
nodes. -/
def GraphStore.addEdge (st : GraphStore) (edge : GraphEdge) : GraphStore :=
  if (alookup st.nodes edge.srcId).isSome ∧ (alookup st.nodes edge.dstId).isSome then
    { st with edges := updateEdgeList st.edges edge }
  else st

/-- `GraphStore.get_node`. -/
def GraphStore.getNode (st : GraphStore) (nodeId : String) : Option GraphNode :=
  alookup st.nodes nodeId

/-- `GraphStore.neighbors_out`: successors, optionally filtered by edge
type; `[]` when the node is unknown to the underlying graph. -/
def GraphStore.neighborsOut (st : GraphStore) (nodeId : String)
    (edgeType : Option EdgeType) : List String :=
  if (alookup st.nodes nodeId).isSome then
    (st.edges.filter fun e =>
      e.srcId == nodeId && (edgeType == none || edgeType == some e.type)).map GraphEdge.dstId
  else []

/-- `GraphStore.neighbors_in`: predecessors, optionally filtered by edge
type. -/
def GraphStore.neighborsIn (st : GraphStore) (nodeId : String)
    (edgeType : Option EdgeType) : List String :=
  if (alookup st.nodes nodeId).isSome then
    (st.edges.filter fun e =>
      e.dstId == nodeId && (edgeType == none || edgeType == some e.type)).map GraphEdge.srcId
  else []

/-- `GraphStore.all_node_ids`. -/
def GraphStore.allNodeIds (st : GraphStore) : List String := dictKeys st.nodes

/-! ## Retrieval (`app/graph/retrieval.py`) -/

/-- `RetrievalConfig` with its dataclass defaults. -/
structure RetrievalConfig where
  depthCalls : Nat := 2
  depthImports : Nat := 1
  depthTests : Nat := 1
  maxNodesPerUnit : Nat := 30
  edgeWeights : Option (EdgeType → ℚ) := none

/-- `_default_weights()`. -/
def defaultWeights : EdgeType → ℚ
  | .tests => 3/2
  | .calls => 1
  | .imports => 4/5
  | .inherits => 7/10
  | .usesConfig => 1/2

namespace RelevantContextFinder

/-- `self._weights = self.config.edge_weights or _default_weights()`,
read with `self._weights.get(edge_type, 0.5)` (the weight maps modelled here
are total, so the `0.5` fallback never fires). -/
def weight (cfg : RetrievalConfig) (t : EdgeType) : ℚ :=
  match cfg.edgeWeights with
  | some w => w t
  | none => defaultWeights t

/-- The `depth_limits` dict built in `find` (read with default `1`, which is
unreachable because the dict covers every member). -/
def depthLimit (cfg : RetrievalConfig) : EdgeType → Nat
  | .calls => cfg.depthCalls
  | .imports => cfg.depthImports
  | .tests => cfg.depthTests
  | .inherits => cfg.depthCalls
  | .usesConfig => cfg.depthImports

/-- The mutable state of the BFS in `find`: the deque of
`(node_id, depth, edge_type_used)` entries, the `seen` set (as the list of
ids in insertion order) and the `scores` dict. -/
structure BfsState where
  queue : List (String × Nat × Option EdgeType)
  seen : List String
  scores : List (String × ℚ)

/-- `scores.get(nid, 0)`. -/
def scoreGet (scores : List (String × ℚ)) (nid : String) : ℚ :=
  (alookup scores nid).getD 0

/-- The body of the two inner neighbour loops of `find`:
`if nid not in seen: seen.add(nid); scores[nid] = scores.get(nid, 0) +
w / (depth + 1); queue.append((nid, depth + 1, t))`. -/
def visitNeighbor (w : ℚ) (t : EdgeType) (depth : Nat)
    (st : BfsState) (vid : String) : BfsState :=
  if vid ∈ st.seen then st
  else
    { queue := st.queue ++ [(vid, depth + 1, some t)]
      seen := st.seen ++ [vid]
      scores := dictInsert st.scores vid (scoreGet st.scores vid + w / ((depth : ℚ) + 1)) }

/-- One iteration of `for edge_type in EdgeType` inside the BFS loop:
skip when the depth limit is reached, otherwise visit the outgoing then the
incoming neighbours on that type. -/
def visitEdgeType (store : GraphStore) (cfg : RetrievalConfig) (nodeId : String)
    (depth : Nat) (st : BfsState) (t : EdgeType) : BfsState :=
  if depth ≥ depthLimit cfg t then st
  else
    let w := weight cfg t
    let st1 := (store.neighborsOut nodeId (some t)).foldl (visitNeighbor w t depth) st
    (store.neighborsIn nodeId (some t)).foldl (visitNeighbor w t depth) st1

/-- The `while queue:` loop of `find`, with explicit fuel. Every enqueue is
guarded by `seen`, so the number of loop iterations is bounded by the number
of seeds plus the number of store nodes; `find` supplies fuel beyond that
bound, making the fuelled loop extensionally equal to the Python loop. -/
def bfsLoop (store : GraphStore) (cfg : RetrievalConfig) :
    Nat → BfsState → BfsState
  | 0, st => st
  | fuel + 1, st =>
    match st.queue with
    | [] => st
    | (nodeId, depth, _) :: rest =>
      match store.getNode nodeId with
      | none => bfsLoop store cfg fuel { st with queue := rest }
      | some _ =>
          bfsLoop store cfg fuel
            (EdgeType.all.foldl (visitEdgeType store cfg nodeId depth) { st with queue := rest })

/-- `set(changed_node_ids)`: first-occurrence deduplication (CPython sets
iterate in an unspecified order; the claims settled here do not depend on
the order, and the concrete instances use singleton seed sets). -/
def setOfIds (l : List String) : List String :=
  l.foldl (fun acc nid => if nid ∈ acc then acc else acc ++ [nid]) []

/-- The initial BFS state: `seeds = set(changed_node_ids)`, queue of
`(nid, 0, None)`, `seen = seeds`, and `scores[nid] = 2.0` for every
seed. -/
def initialBfsState (seeds : List String) : BfsState :=
  { queue := seeds.map fun nid => (nid, 0, none)
    seen := seeds
    scores := seeds.foldl (fun m nid => dictInsert m nid 2) [] }

/-- The `scores` dict at the end of the BFS phase of `find` (before the
post-hoc test/hotspot bonuses). -/
def bfsScores (store : GraphStore) (cfg : RetrievalConfig)
    (changedNodeIds : List String) : List (String × ℚ) :=
  let seeds := setOfIds changedNodeIds
  (bfsLoop store cfg (store.nodes.length + seeds.length + 1) (initialBfsState seeds)).scores

/-- The post-BFS bonus pass of `find`: `+0.5` for test nodes, `+0.3` for
nodes with more than 2 incoming edges. -/
def applyBonuses (store : GraphStore) (scores : List (String × ℚ)) :
    List (String × ℚ) :=
  scores.map fun p =>
    let s :=
      match store.getNode p.1 with
      | some node =>
          if node.kind = .test ∨ node.extra.isTestFile then p.2 + 1/2 else p.2
      | none => p.2
    let s := if 2 < (store.neighborsIn p.1 none).length then s + 3/10 else s
    (p.1, s)

/-- Stable insertion into a list sorted by descending score (ties keep the
earlier element first), matching Python's stable
`sorted(scores.keys(), key=lambda x: -scores[x])`. -/
def insertByScore (x : String × ℚ) : List (String × ℚ) → List (String × ℚ)
  | [] => [x]
  | y :: ys => if x.2 < y.2 then y :: insertByScore x ys else x :: y :: ys

/-- Stable sort by descending score. -/
def sortDescByScore : List (String × ℚ) → List (String × ℚ)
  | [] => []
  | x :: xs => insertByScore x (sortDescByScore xs)

/-- The full ranking produced by `find` before truncation: BFS scores, then
bonuses, then the stable descending sort. -/
def rankedNodeIds (store : GraphStore) (cfg : RetrievalConfig)
    (changedNodeIds : List String) : List String :=
  (sortDescByScore (applyBonuses store (bfsScores store cfg changedNodeIds))).map Prod.fst

/-- `RelevantContextFinder.find`: empty input short-circuits to `[]`;
otherwise the ranking truncated to `max_nodes_per_unit`. -/
def find (store : GraphStore) (cfg : RetrievalConfig)
    (changedNodeIds : List String) : List String :=
  if changedNodeIds.isEmpty then []
  else (rankedNodeIds store cfg changedNodeIds).take cfg.maxNodesPerUnit

end RelevantContextFinder

/-- The BFS state invariant of the retrieval proofs: every scored node has
been seen, every seed has been seen, and every non-seed score equals the
single contribution `weight(t) / (depth + 1)` of the one edge that first
discovered the node. -/
def ScoreInvariant (cfg : RetrievalConfig) (seeds : List String)
    (st : RelevantContextFinder.BfsState) : Prop :=
  (∀ k ∈ dictKeys st.scores, k ∈ st.seen) ∧
  (∀ s ∈ seeds, s ∈ st.seen) ∧
  ∀ p ∈ st.scores, p.1 ∉ seeds →
    ∃ (t : EdgeType) (d : Nat),
      p.2 = RelevantContextFinder.weight cfg t / ((d : ℚ) + 1)

/-! ## Python AST fragment

A shallow embedding of the statement-level Python AST consumed by
`app/ast_/python_extractor.py` and `app/graph/python_builder.py`.
Expressions inside statements are abstracted to the two features the
visitors read from them: an optional leading string constant (the docstring
position, `ast.get_docstring`) and the list of call names `_CallVisitor`
would collect (each `ast.Name` callee id or `ast.unparse`d attribute
chain, in visit order). Decorators and base classes are kept as their
`ast.unparse` strings. -/

/-- An assignment target: an `ast.Name` or anything else. -/
inductive Target where
  | name (id : String)
  | other
deriving DecidableEq, Repr

/-- `ast.arguments`. -/
structure Arguments where
  posonlyargs : List String := []
  args : List String := []
  vararg : Option String := none
  kwonlyargs : List String := []
  kwarg : Option String := none
deriving DecidableEq, Repr

/-- Python statements, restricted to the constructors the visitors
distinguish; `other` stands for any compound statement (if/for/while/…)
with nested statements, and `ret` for simple statements without nested
statements. -/
inductive Stmt where
  | functionDef (name : String) (argsA : Arguments) (body : List Stmt)
      (decoratorList : List String) (lineno endLineno : Nat)
  | classDef (name : String) (bases : List String) (body : List Stmt)
      (decoratorList : List String) (lineno endLineno : Nat)
  | assign (targets : List Target) (callNames : List String) (lineno endLineno : Nat)
  | importStmt (names : List (String × Option String))
  | importFrom (moduleName : String) (names : List (String × Option String))
  | exprStr (s : String)
  | ret (callNames : List String)
  | other (callNames : List String) (children : List Stmt)
deriving Repr

/-- `ast.get_docstring`: the first body statement when it is a string
constant expression. -/
def getDocstring : List Stmt → Option String
  | .exprStr s :: _ => some s
  | _ => none

/-! ## Symbol extraction (`app/ast_/python_extractor.py`) -/

/-- `_format_args`. -/
def formatArgs (argsA : Arguments) : String :=
  let names := argsA.posonlyargs
  let names := if argsA.posonlyargs ≠ [] then names ++ ["/"] else names
  let names := names ++ argsA.args
  let names := names ++ (match argsA.vararg with | some v => ["*" ++ v] | none => [])
  let names := names ++ argsA.kwonlyargs
  let names := names ++ (match argsA.kwarg with | some k => ["**" ++ k] | none => [])
  "(" ++ String.intercalate ", " names ++ ")"

/-- `SymbolInfo` from `app/ast_/interfaces.py`. The `extra` dict is read
only at the key `parent_class`, modelled directly (both `{}` and
`{"parent_class": None}` become `none`, exactly what
`(s.extra or {}).get("parent_class")` yields). -/
structure SymbolInfo where
  name : String
  kind : SymbolKind
  lineStart : Nat := 0
  lineEnd : Nat := 0
  signature : Option String := none
  docstring : Option String := none
  decorators : List String := []
  parentClass : Option String := none
deriving DecidableEq, Repr

/-- The mutable state of `_Visitor`: collected symbols and the current
class name. -/
structure VisitorState where
  symbols : List SymbolInfo
  currentClass : Option String
deriving Repr

/-- The target loop of `visit_Assign`: the first `ast.Name` target whose id
is not already bound among the collected symbols yields one Constant
record (then `break`); bound or non-`Name` targets are passed over. -/
def assignConstant (symbols : List SymbolInfo) (lineno endLineno : Nat) :
    List Target → List SymbolInfo
  | [] => []
  | .name id :: rest =>
      if symbols.any (fun s => s.name = id) then
        assignConstant symbols lineno endLineno rest
      else
        [{ name := id, kind := .constant, lineStart := lineno, lineEnd := endLineno,
           signature := some id }]
  | .other :: rest => assignConstant symbols lineno endLineno rest

mutual

/-- `_Visitor.visit` on one statement: `visit_ClassDef`, `visit_FunctionDef`
and `visit_Assign` as written; every other statement takes the
`generic_visit` path (children only). -/
def visitStmt (st : VisitorState) : Stmt → VisitorState
  | .classDef name _ body decoratorList lineno endLineno =>
      let st1 : VisitorState :=
        { st with symbols := st.symbols ++
            [{ name := name, kind := .class, lineStart := lineno, lineEnd := endLineno,
               signature := some name, docstring := getDocstring body,
               decorators := decoratorList }] }
      let st2 := visitStmts { st1 with currentClass := some name } body
      { st2 with currentClass := st.currentClass }
  | .functionDef name argsA body decoratorList lineno endLineno =>
      let kind : SymbolKind := if st.currentClass.isSome then .method else .function
      let st1 : VisitorState :=
        { st with symbols := st.symbols ++
            [{ name := name, kind := kind, lineStart := lineno, lineEnd := endLineno,
               signature := some (name ++ formatArgs argsA),
               docstring := getDocstring body, decorators := decoratorList,
               parentClass := st.currentClass }] }
      visitStmts st1 body
  | .assign targets _ lineno endLineno =>
      if st.currentClass.isSome then st
      else { st with symbols := st.symbols ++ assignConstant st.symbols lineno endLineno targets }
  | .other _ children => visitStmts st children
  | _ => st
termination_by structural s => s

/-- Visiting a statement list left to right (the order `generic_visit`
walks a body). -/
def visitStmts (st : VisitorState) : List Stmt → VisitorState
  | [] => st
  | s :: rest => visitStmts (visitStmt st s) rest
termination_by structural l => l

end

/-- `PythonSymbolExtractor.extract` on a parsed module body. -/
def extract (tree : List Stmt) : List SymbolInfo :=
  (visitStmts { symbols := [], currentClass := none } tree).symbols

/-! ## Semantic diff (`app/ast_/python_differ.py`) -/

/-- `SymbolChange` from `domain.py` (descriptors and line range always
supplied by the differ). -/
structure SymbolChange where
  filePath : String
  symbolName : String
  kind : SymbolKind
  changeType : ChangeType
  descriptors : List String
  lineStart : Nat
  lineEnd : Nat
deriving DecidableEq, Repr

/-- `_symbol_key`. -/
def symbolKey (s : SymbolInfo) : String × SymbolKind × Option String :=
  (s.name, s.kind, s.parentClass)

/-- A Python dict comprehension `{key(x): x for x in l}`: left-to-right
insertion, later duplicates replacing earlier values in place. -/
def pyDictOf {α β : Type} [DecidableEq α] (l : List (α × β)) : List (α × β) :=
  l.foldl (fun m p => dictInsert m p.1 p.2) []

namespace PythonSemanticDiffer

/-- `_compare_symbols`: one descriptor per differing field, accumulated in
the fixed order signature, docstring, decorators. -/
def compareSymbols (baseS headS : SymbolInfo) : List String :=
  (if baseS.signature ≠ headS.signature then ["signature_change"] else []) ++
  (if baseS.docstring ≠ headS.docstring then ["docstring_change"] else []) ++
  (if baseS.decorators ≠ headS.decorators then ["decorator_change"] else [])

/-- The body of the first loop of `diff` (`for key, head_s in
head_by_key.items()`): emit Added when the key is absent in base, Modified
when the descriptor comparison is non-empty. -/
def headLoopStep (filePath : String)
    (baseByKey : List ((String × SymbolKind × Option String) × SymbolInfo))
    (acc : List SymbolChange)
    (p : (String × SymbolKind × Option String) × SymbolInfo) : List SymbolChange :=
  let headS := p.2
  match alookup baseByKey p.1 with
  | none =>
      acc ++ [{ filePath := filePath, symbolName := headS.name, kind := headS.kind,
                changeType := .added, descriptors := ["added"],
                lineStart := headS.lineStart, lineEnd := headS.lineEnd }]
  | some baseS =>
      let descriptors := compareSymbols baseS headS
      if descriptors ≠ [] then
        acc ++ [{ filePath := filePath, symbolName := headS.name, kind := headS.kind,
                  changeType := .modified, descriptors := descriptors,
                  lineStart := headS.lineStart, lineEnd := headS.lineEnd }]
      else acc

/-- The body of the second loop of `diff` (`for key, base_s in
base_by_key.items()`): emit Removed when the key is absent in head. -/
def baseLoopStep (filePath : String)
    (headByKey : List ((String × SymbolKind × Option String) × SymbolInfo))
    (acc : List SymbolChange)
    (p : (String × SymbolKind × Option String) × SymbolInfo) : List SymbolChange :=
  let baseS := p.2
  if alookup headByKey p.1 = none then
    acc ++ [{ filePath := filePath, symbolName := baseS.name, kind := baseS.kind,
              changeType := .removed, descriptors := ["removed"],
              lineStart := baseS.lineStart, lineEnd := baseS.lineEnd }]
  else acc

/-- `PythonSemanticDiffer.diff`. -/
def diff (filePath : String) (baseSymbols headSymbols : List SymbolInfo) :
    List SymbolChange :=
  let baseByKey := pyDictOf (baseSymbols.map fun s => (symbolKey s, s))
  let headByKey := pyDictOf (headSymbols.map fun s => (symbolKey s, s))
  let changes := headByKey.foldl (headLoopStep filePath baseByKey) []
  baseByKey.foldl (baseLoopStep filePath headByKey) changes

end PythonSemanticDiffer

/-! ## Python string primitives

Character-list implementations of the `str` operations the embedded code
uses (`in`, `replace`, `split`, `startswith`, `endswith`, `lower`,
`strip`). -/

/-- The characters Python `str.strip()` and regex `\s` treat as whitespace
(ASCII). -/
def isPyWs (c : Char) : Bool :=
  c == ' ' || c == '\t' || c == '\n' || c == '\r' || c == '\x0b' || c == '\x0c'

/-- `s.split(sep)` on character lists for a nonempty separator
`s0 :: sepRest`: split at every non-overlapping occurrence, left to
right.  The fuel argument (instantiated with the input length, an upper
bound on the number of steps) keeps the recursion structural. -/
def pySplitChars (s0 : Char) (sepRest : List Char) : Nat → List Char → List (List Char)
  | _, [] => [[]]
  | 0, cs => [cs]
  | fuel + 1, c :: rest =>
      if (s0 :: sepRest).isPrefixOf (c :: rest) then
        [] :: pySplitChars s0 sepRest fuel (rest.drop sepRest.length)
      else
        match pySplitChars s0 sepRest fuel rest with
        | [] => [[c]]
        | piece :: pieces => (c :: piece) :: pieces

/-- `s.split(sep)` (the embedded code only splits on nonempty
separators). -/
def pySplitOn (s pat : String) : List String :=
  match pat.data with
  | [] => [s]
  | c :: cs => (pySplitChars c cs s.data.length s.data).map String.mk

/-- Rejoin split pieces with a replacement (the building block of
`str.replace`). -/
def joinWithChars (repl : List Char) : List (List Char) → List Char
  | [] => []
  | [piece] => piece
  | piece :: rest => piece ++ repl ++ joinWithChars repl rest

/-- `s.replace(pat, repl)`: replace every non-overlapping occurrence, left
to right (the embedded code only replaces nonempty patterns). -/
def pyReplace (s pat repl : String) : String :=
  match pat.data with
  | [] => s
  | c :: cs => String.mk (joinWithChars repl.data (pySplitChars c cs s.data.length s.data))

/-- `s.startswith(pat)`. -/
def pyStartsWith (s pat : String) : Bool :=
  pat.data.isPrefixOf s.data

/-- `s.endswith(pat)`. -/
def pyEndsWith (s pat : String) : Bool :=
  pat.data.isSuffixOf s.data

/-- `s.lower()` (ASCII). -/
def pyLower (s : String) : String :=
  String.mk (s.data.map Char.toLower)

/-! ## Finding parser (`app/llm/orchestrator.py`, `_parse_findings_from_response`) -/

/-- Python `str.strip()`. -/
def pyStrip (s : String) : String :=
  String.mk (((s.data.dropWhile isPyWs).reverse.dropWhile isPyWs).reverse)

/-- Case-insensitive literal match at the head of a character list. -/
def ciStartsWith (cs : List Char) (w : List Char) : Bool :=
  (cs.take w.length).map Char.toLower == w

/-- Substring search on character lists (`word in text`). -/
def listContains (hay needle : List Char) : Bool :=
  match hay with
  | [] => needle == []
  | _ :: rest => ciPrefixHere hay needle || listContains rest needle
where
  ciPrefixHere (hay needle : List Char) : Bool :=
    match needle with
    | [] => true
    | n :: ns =>
        match hay with
        | [] => false
        | h :: hs => h == n && ciPrefixHere hs ns

/-- The `#{1,3}\s` branch of the split pattern, after one `#` has been
seen: up to `k` further `#` then one whitespace character. -/
def hashThenWs : Nat → List Char → Bool
  | _, [] => false
  | k, c :: rest =>
      if isPyWs c then true
      else if c == '#' && k > 0 then hashThenWs (k - 1) rest
      else false

/-- The `-\s*(?:Error|Warning|Info|Suggestion)` branch (case-insensitive),
after the `-`. -/
def severityLeader (cs : List Char) : Bool :=
  let cs := cs.dropWhile isPyWs
  ciStartsWith cs "error".data || ciStartsWith cs "warning".data ||
  ciStartsWith cs "info".data || ciStartsWith cs "suggestion".data

/-- The lookahead `(?=#{1,3}\s|\*\*|-\s*(?:Error|Warning|Info|Suggestion))`
of the block-split pattern. -/
def lookaheadMatch : List Char → Bool
  | '#' :: rest => hashThenWs 2 rest
  | '*' :: '*' :: _ => true
  | '-' :: rest => severityLeader rest
  | _ => false

/-- `re.split` on `\n` positions whose following text satisfies the
lookahead: the newline is consumed, the surrounding pieces are returned. -/
def splitBlocksAux : List Char → List Char → List String
  | [], acc => [String.mk acc.reverse]
  | '\n' :: rest, acc =>
      if lookaheadMatch rest then String.mk acc.reverse :: splitBlocksAux rest []
      else splitBlocksAux rest ('\n' :: acc)
  | c :: rest, acc => splitBlocksAux rest (c :: acc)

/-- The block split of `_parse_findings_from_response`. -/
def splitBlocks (s : String) : List String := splitBlocksAux s.data []

/-- The `severity_map` dict, in insertion order. -/
def severityMap : List (String × String) :=
  [("error", "error"), ("warning", "warn"), ("warn", "warn"),
   ("info", "info"), ("suggestion", "info")]

/-- The `category_map` dict, in insertion order. -/
def categoryMap : List (String × String) :=
  [("correctness", "correctness"), ("security", "security"),
   ("performance", "performance"), ("style", "style"), ("test", "correctness")]

/-- First map entry whose keyword occurs in the scanned prefix, else the
default (`for word, sev in d.items(): if word in block.lower()[:200]`). -/
def firstKeywordMatch (scan : List Char) (dflt : String) :
    List (String × String) → String
  | [] => dflt
  | (w, v) :: rest =>
      if listContains scan w.data then v else firstKeywordMatch scan dflt rest

/-- Parse a maximal nonempty digit run (`\d+`). -/
def digitRun (cs : List Char) : Option Nat :=
  let ds := cs.takeWhile Char.isDigit
  if ds = [] then none
  else some (ds.foldl (fun n c => n * 10 + (c.toNat - '0'.toNat)) 0)

/-- Try the regex `(?:line|L)\s*(\d+)` (case-insensitive) anchored at this
position: alternative `line` first, then `L`. -/
def matchLineRef (cs : List Char) : Option Nat :=
  let afterWord (rest : List Char) : Option Nat := digitRun (rest.dropWhile isPyWs)
  match (if ciStartsWith cs "line".data then afterWord (cs.drop 4) else none) with
  | some n => some n
  | none => if ciStartsWith cs "l".data then afterWord (cs.drop 1) else none

/-- Leftmost match of the line-reference regex in the block. -/
def findLineRef : List Char → Option Nat
  | [] => none
  | c :: rest =>
      match matchLineRef (c :: rest) with
      | some n => some n
      | none => findLineRef rest

/-- `ReviewFinding` from `domain.py`. -/
structure ReviewFinding where
  severity : String
  category : String
  locationFile : String
  locationLineStart : Option Nat := none
  locationLineEnd : Option Nat := none
  symbol : Option String := none
  message : String
  suggestedFix : Option String := none
deriving DecidableEq, Repr

/-- The per-block body of `_parse_findings_from_response`: strip, discard
when shorter than 10 characters, then severity/category keyword scan over
the lowercased first 200 characters, first line reference, and the first
500 characters as message. -/
def parseBlock (defaultFile defaultSymbol : String) (block : String) :
    Option ReviewFinding :=
  let bs := pyStrip block
  if bs.data.length < 10 then none
  else
    let scan := (bs.data.map Char.toLower).take 200
    let lineNum := findLineRef bs.data
    some { severity := firstKeywordMatch scan "info" severityMap
           category := firstKeywordMatch scan "style" categoryMap
           locationFile := defaultFile
           locationLineStart := lineNum
           locationLineEnd := lineNum
           symbol := if defaultSymbol = "" then none else some defaultSymbol
           message := pyStrip (String.mk (bs.data.take 500)) }

/-- `_parse_findings_from_response`. -/
def parseFindingsFromResponse (response defaultFile defaultSymbol : String) :
    List ReviewFinding :=
  let findings := (splitBlocks response).filterMap (parseBlock defaultFile defaultSymbol)
  if findings = [] ∧ pyStrip response ≠ "" then
    [{ severity := "info", category := "style", locationFile := defaultFile,
       message := pyStrip (String.mk (response.data.take 500)) }]
  else findings

/-! ## Graph builder (`app/graph/python_builder.py`) -/

/-- Python `pat in s` on strings (substring containment). -/
def pyContains (s pat : String) : Bool :=
  listContains s.data pat.data

/-- `_module_id` (and the module case of `_node_id`); `os.sep` is `/`. -/
def moduleIdOf (filePath : String) : String :=
  pyReplace (pyReplace filePath "/" ".") ".py" ""

/-- `_node_id`. -/
def nodeIdOf (filePath symbolName : String) (kind : SymbolKind)
    (parentClass : Option String) : String :=
  if kind = .module then moduleIdOf filePath
  else
    match parentClass with
    | some parent => filePath ++ "::" ++ parent ++ "." ++ symbolName
    | none => filePath ++ "::" ++ symbolName

/-- `_is_test_file` (Python `and` binds tighter than `or`). -/
def isTestFileName (filePath : String) : Bool :=
  let name := (pySplitOn filePath "/").getLastD ""
  (pyStartsWith name "test_" && pyEndsWith name ".py") || pyEndsWith name "_test.py"

/-- The statement children a visitor recurses into. -/
def stmtChildren : Stmt → List Stmt
  | .functionDef _ _ body _ _ _ => body
  | .classDef _ _ body _ _ _ => body
  | .other _ children => children
  | _ => []

mutual

/-- `_CallVisitor` applied to one statement: its own call names followed by
those of its nested statements (depth-first, as `generic_visit` walks). -/
def stmtCalls : Stmt → List String
  | .functionDef _ _ body _ _ _ => stmtsCalls body
  | .classDef _ _ body _ _ _ => stmtsCalls body
  | .assign _ callNames _ _ => callNames
  | .ret callNames => callNames
  | .other callNames children => callNames ++ stmtsCalls children
  | _ => []
termination_by structural s => s

/-- `_CallVisitor` over a statement list. -/
def stmtsCalls : List Stmt → List String
  | [] => []
  | s :: rest => stmtCalls s ++ stmtsCalls rest
termination_by structural l => l

end

mutual

/-- `_ImportVisitor` applied to one statement: `visit_Import` yields the
aliases as-is, `visit_ImportFrom` prefixes the module (when nonempty) to
each imported name; the visitor recurses into nested statements. -/
def stmtImports : Stmt → List (String × Option String)
  | .importStmt names => names
  | .importFrom moduleName names =>
      names.map fun p =>
        (if moduleName ≠ "" then moduleName ++ "." ++ p.1 else p.1, p.2)
  | .functionDef _ _ body _ _ _ => stmtsImports body
  | .classDef _ _ body _ _ _ => stmtsImports body
  | .other _ children => stmtsImports children
  | _ => []
termination_by structural s => s

/-- `_ImportVisitor` over a statement list. -/
def stmtsImports : List Stmt → List (String × Option String)
  | [] => []
  | s :: rest => stmtImports s ++ stmtsImports rest
termination_by structural l => l

end

mutual

/-- The number of statements in a statement's subtree (itself included). -/
def stmtSize : Stmt → Nat
  | .functionDef _ _ body _ _ _ => 1 + stmtsSize body
  | .classDef _ _ body _ _ _ => 1 + stmtsSize body
  | .other _ children => 1 + stmtsSize children
  | _ => 1
termination_by structural s => s

/-- The number of statements in a statement list's subtrees. -/
def stmtsSize : List Stmt → Nat
  | [] => 0
  | s :: rest => stmtSize s + stmtsSize rest
termination_by structural l => l

end

/-- One breadth-first level expansion used to linearize `ast.walk`
(a breadth-first traversal): all statement children of the given
statements, in parent order. -/
def levelChildren (roots : List Stmt) : List Stmt :=
  roots.foldr (fun s acc => stmtChildren s ++ acc) []

/-- Fuelled breadth-first linearization: the given statements, then their
children level by level.  The tree depth is bounded by its statement
count, so `astWalk` below supplies sufficient fuel. -/
def walkLevels : Nat → List Stmt → List Stmt
  | 0, _ => []
  | fuel + 1, roots =>
      if roots.isEmpty then [] else roots ++ walkLevels fuel (levelChildren roots)

/-- `ast.walk` over a module body, restricted to statements (the only AST
nodes the builder's `isinstance` filters can select). -/
def astWalk (tree : List Stmt) : List Stmt :=
  walkLevels (stmtsSize tree + 1) tree

/-- The `ast.walk` search for the first `ClassDef` with the given name
(its base-class `unparse` strings); `break` after the first hit. -/
def findClassDefBases (tree : List Stmt) (name : String) : Option (List String) :=
  (astWalk tree).findSome? fun s =>
    match s with
    | .classDef n bases _ _ _ _ => if n = name then some bases else none
    | _ => none

/-- The `ast.walk` search for the first `FunctionDef` with the given name,
returning the call names `_CallVisitor` collects from it. -/
def findFunctionDefCalls (tree : List Stmt) (name : String) : Option (List String) :=
  (astWalk tree).findSome? fun s =>
    match s with
    | .functionDef n _ body _ _ _ => if n = name then some (stmtsCalls body) else none
    | _ => none

/-- The scan in the Tests-edge block: the first store node (in
`all_node_ids` order) that is a Module whose `symbol_name` contains
`base_module` as a substring or ends with `"." + base_module`. -/
def findTestsTargetNid (store : GraphStore) (baseModule : String) : Option String :=
  store.allNodeIds.find? fun nid =>
    match store.getNode nid with
    | some nodeObj =>
        nodeObj.kind == .module &&
          (pyContains nodeObj.symbolName baseModule ||
            pyEndsWith nodeObj.symbolName ("." ++ baseModule))
    | none => false

/-- The scan in the module-Imports block: the first store node (in
`all_node_ids` order) that is a Module whose *id* contains
`other_module_id` as a substring or ends with `"." + other_module_id`. -/
def findImportTargetNid (store : GraphStore) (otherModuleId : String) : Option String :=
  store.allNodeIds.find? fun nid =>
    match store.getNode nid with
    | some nodeObj =>
        nodeObj.kind == .module &&
          (pyContains nid otherModuleId || pyEndsWith nid ("." ++ otherModuleId))
    | none => false

namespace PythonGraphBuilder

/-- The body of the `for s in symbols:` loop of
`PythonGraphBuilder._process_file`: add the symbol node and its
belongs-to-module Imports edge; same-file Inherits edges for classes;
same-file Calls edges for functions and methods; and — still inside this
per-symbol loop in the source — the Tests edges from the test module to
modules matching its imports. -/
def processSymbol (filePath : String) (tree : List Stmt) (moduleId : String)
    (isTest includeTests : Bool) (store : GraphStore) (s : SymbolInfo) : GraphStore :=
  let nid := nodeIdOf filePath s.name s.kind s.parentClass
  let store := store.addNode
    { id := nid, kind := s.kind, filePath := filePath, symbolName := s.name,
      extra := { lineStart := some s.lineStart, lineEnd := some s.lineEnd,
                 parentClass := s.parentClass } }
  let store := store.addEdge ⟨nid, moduleId, .imports⟩
  let store :=
    if s.kind = .class then
      match findClassDefBases tree s.name with
      | some bases =>
          bases.foldl
            (fun store baseName =>
              if baseName ≠ "" then
                let baseId := filePath ++ "::" ++ baseName
                if (store.getNode baseId).isSome then
                  store.addEdge ⟨nid, baseId, .inherits⟩
                else store
              else store)
            store
      | none => store
    else store
  let store :=
    if s.kind = .method ∨ s.kind = .function then
      match findFunctionDefCalls tree s.name with
      | some callNames =>
          callNames.foldl
            (fun store callName =>
              let targetId := filePath ++ "::" ++ callName
              if (store.getNode targetId).isSome then
                store.addEdge ⟨nid, targetId, .calls⟩
              else store)
            store
      | none => store
    else store
  if isTest && includeTests then
    (stmtsImports tree).foldl
      (fun store imp =>
        let baseModule :=
          if pyContains imp.1 "." then ((pySplitOn imp.1 ".").headD "") else imp.1
        match findTestsTargetNid store baseModule with
        | some nid2 => store.addEdge ⟨moduleId, nid2, .tests⟩
        | none => store)
      store
  else store

/-- `PythonGraphBuilder._process_file`: module node, the per-symbol loop,
then the module-to-module Imports edges from the file's imports. -/
def processFile (store : GraphStore) (filePath : String) (tree : List Stmt)
    (includeTests : Bool) : GraphStore :=
  let symbols := extract tree
  let moduleId := moduleIdOf filePath
  let isTest := isTestFileName filePath
  let store := store.addNode
    { id := moduleId, kind := .module, filePath := filePath, symbolName := moduleId,
      extra := { isTestFile := isTest } }
  let store := symbols.foldl (processSymbol filePath tree moduleId isTest includeTests) store
  (stmtsImports tree).foldl
    (fun store imp =>
      let otherModuleId := pyReplace (pyReplace imp.1 "/" ".") ".py" ""
      let otherModuleId :=
        if pyContains otherModuleId "." then ((pySplitOn otherModuleId ".").headD "")
        else otherModuleId
      match findImportTargetNid store otherModuleId with
      | some nid => store.addEdge ⟨moduleId, nid, .imports⟩
      | none => store)
    store

/-- `PythonGraphBuilder.build`, with the filesystem walk abstracted: the
input is the list of successfully parsed `.py` files (path relative to the
head worktree, module body) in `rglob` order. -/
def build (files : List (String × List Stmt)) (includeTests : Bool) : GraphStore :=
  files.foldl (fun store p => processFile store p.1 p.2 includeTests) {}

end PythonGraphBuilder

/-! ## The two-file head worktree of acceptance check (d)

`foo.py` defining module `foo` (a single function `foo`), and
`test_foo.py` whose entire content is `from foo import foo`. -/

/-- Parse tree of `foo.py` (`def foo(): return 1`). -/
def fooPyTree : List Stmt := [.functionDef "foo" {} [.ret []] [] 1 2]

/-- Parse tree of `test_foo.py` (`from foo import foo`). -/
def testFooPyTree : List Stmt := [.importFrom "foo" [("foo", none)]]

/-- The store built from the two-file fixture (`rglob` yields `foo.py`
before `test_foo.py`). -/
def fixtureStore : GraphStore :=
  PythonGraphBuilder.build [("foo.py", fooPyTree), ("test_foo.py", testFooPyTree)] true

/-! ## Review pipeline (`app/services/pipeline.py`, `run_pipeline`)

`run_pipeline` is `async` and talks to the diff provider, the filesystem
and the LLM client; those boundaries are abstracted into a `PipelineEnv`
carrying each injected dependency's outcome.  The function's own control
flow — the fail-fast early returns and the mode dispatch — is translated
directly.  A Python `return a, b, c` becomes `.ok` of the list of returned
components, so the length of the list is the length of the returned tuple;
an uncaught exception becomes `.error`. -/

/-- `FileChange` from `domain.py`. -/
structure FileChange where
  path : String
  changeType : String
  language : Option String := none
  oldPath : Option String := none
deriving DecidableEq, Repr

/-- The attributes bound on a `ReviewOrchestrator` instance: the instance
attributes set in `__init__` and the methods defined by the class
(`orchestrator.py` defines `__init__` and `run` only).  `run_per_unit`,
which `run_pipeline` invokes, is not among them, so the attribute access
raises `AttributeError`. -/
def reviewOrchestratorAttrs : List String :=
  ["llm", "store", "assembler", "__init__", "run"]

/-- The message of the `AttributeError` raised by
`orchestrator.run_per_unit`. -/
def runPerUnitAttributeError : String :=
  "AttributeError: ReviewOrchestrator object has no attribute run_per_unit"

/-- One component of a returned pipeline tuple: the summary string, the
findings list, the status string, the unit-review dict list (by count) or
the optional combined review. -/
inductive PyVal where
  | str (s : String)
  | findings (l : List ReviewFinding)
  | dicts (n : Nat)
  | optStr (o : Option String)
deriving DecidableEq, Repr

/-- The outcomes of the dependencies `run_pipeline` consumes:
`get_file_changes`, the base/head checkout, `run_ast_diff`, the
`review_mode` argument, and the batched `llm.complete` call. -/
structure PipelineEnv where
  fileChanges : Except String (List FileChange)
  checkout : Except String Unit
  symbolChanges : List SymbolChange
  reviewMode : String
  llmComplete : Except String String

/-- `run_pipeline` (lines 234–316 of `pipeline.py`).  The early returns at
the fail-fast stages return three components; the per-unit branch reaches
`orchestrator.run_per_unit(units, repo_context="")`, whose attribute
lookup fails (see `reviewOrchestratorAttrs`), so the `AttributeError`
propagates out of the function; the batched branch returns five
components. -/
def runPipeline (env : PipelineEnv) : Except String (List PyVal) :=
  match env.fileChanges with
  | .error e =>
      .ok [.str ("Failed to get file changes: " ++ e), .findings [], .str "failed"]
  | .ok fileChanges =>
    if fileChanges.length = 0 then
      .ok [.str "No file changes between base and head.", .findings [], .str "completed"]
    else
      match env.checkout with
      | .error e =>
          .ok [.str ("Failed to checkout base/head: " ++ e), .findings [], .str "failed"]
      | .ok _ =>
        if env.symbolChanges.length = 0 then
          .ok [.str ("Detected " ++ toString fileChanges.length ++
                      " file(s) changed; no Python symbol-level changes."),
               .findings [], .str "completed"]
        else
          let mode := pyLower (if env.reviewMode = "" then "batched" else env.reviewMode)
          let mode :=
            if mode = "batched" ∨ mode = "per_unit" ∨ mode = "both" then mode
            else "batched"
          if mode = "per_unit" ∨ mode = "both" then
            .error runPerUnitAttributeError
          else
            match env.llmComplete with
            | .error e =>
                .ok [.str ("LLM review failed: " ++ e), .findings [],
                     .str "failed", .dicts 0, .optStr none]
            | .ok summary =>
                .ok [.str summary,
                     .findings (parseFindingsFromResponse summary "" ""),
                     .str "completed", .dicts 0, .optStr none]

/-! ## Concrete instances used by the verification -/

/-- A graph node with defaulted metadata, for concrete stores. -/
def plainNode (id : String) (kind : SymbolKind) (testFlag : Bool) : GraphNode :=
  { id := id, kind := kind, filePath := id, symbolName := id,
    extra := { isTestFile := testFlag } }

/-- Store with seed `a` and a node `b` reachable from `a` over two distinct
edge types at depth 0: `a --CALLS--> b` (outgoing) and `b --TESTS--> a`
(incoming). -/
def dualReachStore : GraphStore :=
  ((((GraphStore.mk [] []).addNode (plainNode "a" .function false)).addNode
      (plainNode "b" .function false)).addEdge ⟨"a", "b", .calls⟩).addEdge
    ⟨"b", "a", .tests⟩

/-- Store where the seed `a` is outscored: `a --TESTS--> t` with `t` a test
module that also has three incoming CALLS edges (hotspot), so `t` ends at
score 1.5 + 0.5 + 0.3 = 2.3 while the seed keeps its 2.0. -/
def testHotspotStore : GraphStore :=
  ((((((((GraphStore.mk [] []).addNode (plainNode "a" .function false)).addNode
      (plainNode "t" .module true)).addNode (plainNode "x1" .function false)).addNode
      (plainNode "x2" .function false)).addNode
      (plainNode "x3" .function false)).addEdge ⟨"a", "t", .tests⟩).addEdge
      ⟨"x1", "t", .calls⟩ |>.addEdge ⟨"x2", "t", .calls⟩).addEdge ⟨"x3", "t", .calls⟩

/-- The retrieval config of the seed-eviction counterexample: defaults with
`max_nodes_per_unit = 1`. -/
def capOneConfig : RetrievalConfig := { maxNodesPerUnit := 1 }

/-- Store with nodes `a`, `b` and two successive `add_edge` calls on the
same ordered pair with different types. -/
def retypedEdgeStore : GraphStore :=
  ((((GraphStore.mk [] []).addNode (plainNode "a" .function false)).addNode
      (plainNode "b" .function false)).addEdge ⟨"a", "b", .calls⟩).addEdge
    ⟨"a", "b", .tests⟩

/-- The number of Constant records in a symbol list. -/
def countConstants (l : List SymbolInfo) : Nat :=
  l.countP fun s => s.kind == .constant

/-- Parse tree of `def f():\n    x = 1` — a top-level function whose body
assigns to the fresh name `x`. -/
def defWithNestedAssign : List Stmt :=
  [.functionDef "f" {} [.assign [.name "x"] [] 2 2] [] 1 2]

/-- Base record of a parameter-rename: `def f(x)` extracted at top level
(signature `f(x)` per `_format_args`). -/
def renameOnlyBase : SymbolInfo :=
  { name := "f", kind := .function, lineStart := 1, lineEnd := 2,
    signature := some ("f" ++ formatArgs { args := ["x"] }) }

/-- Head record of the parameter-rename: `def f(y)` (signature `f(y)`);
identical to `renameOnlyBase` in every other field. -/
def renameOnlyHead : SymbolInfo :=
  { name := "f", kind := .function, lineStart := 1, lineEnd := 2,
    signature := some ("f" ++ formatArgs { args := ["y"] }) }

/-- A file change, as the pipeline receives from the diff provider. -/
def sampleFileChange : FileChange :=
  { path := "a.py", changeType := "modified", language := some "python" }

/-- A symbol change, as `run_ast_diff` would produce. -/
def sampleSymbolChange : SymbolChange :=
  { filePath := "a.py", symbolName := "f", kind := .function,
    changeType := .modified, descriptors := ["signature_change"],
    lineStart := 1, lineEnd := 2 }

/-- A pipeline environment whose diff provider reports no file changes. -/
def envNoChanges : PipelineEnv :=
  { fileChanges := .ok [], checkout := .ok (), symbolChanges := [],
    reviewMode := "batched", llmComplete := .ok "looks fine" }

/-- A pipeline environment that passes every fail-fast stage with
`review_mode = "per_unit"`. -/
def envPerUnit : PipelineEnv :=
  { fileChanges := .ok [sampleFileChange], checkout := .ok (),
    symbolChanges := [sampleSymbolChange], reviewMode := "per_unit",
    llmComplete := .ok "looks fine" }

/-! # Theorems -/

/-! ## Dictionary lemmas -/

theorem alookup_dictInsert_self {α β : Type} [DecidableEq α]
    (m : List (α × β)) (k : α) (v : β) :
    alookup (dictInsert m k v) k = some v := by
  induction m with
  | nil => simp [dictInsert, alookup]
  | cons hd tl ih =>
      by_cases h : hd.1 = k
      · simp [dictInsert, alookup, h]
      · simpa [dictInsert, alookup, h] using ih

theorem mem_dictKeys_dictInsert {α β : Type} [DecidableEq α]
    (m : List (α × β)) (k k' : α) (v : β) :
    k ∈ dictKeys (dictInsert m k' v) ↔ k = k' ∨ k ∈ dictKeys m := by
  induction m with
  | nil => simp [dictInsert, dictKeys]
  | cons hd tl ih =>
      obtain ⟨k0, v0⟩ := hd
      have heq : dictInsert ((k0, v0) :: tl) k' v =
          if k0 = k' then (k0, v) :: tl else (k0, v0) :: dictInsert tl k' v := rfl
      rw [heq]
      by_cases h : k0 = k'
      · rw [if_pos h]
        subst h
        simp only [dictKeys, List.map_cons, List.mem_cons]
        tauto
      · rw [if_neg h]
        have ih' : k ∈ List.map Prod.fst (dictInsert tl k' v) ↔
            k = k' ∨ k ∈ List.map Prod.fst tl := ih
        simp only [dictKeys, List.map_cons, List.mem_cons]
        rw [ih']
        tauto

theorem nodup_dictKeys_dictInsert {α β : Type} [DecidableEq α]
    (m : List (α × β)) (k : α) (v : β) (h : (dictKeys m).Nodup) :
    (dictKeys (dictInsert m k v)).Nodup := by
  induction m with
  | nil => simp [dictInsert, dictKeys]
  | cons hd tl ih =>
      simp only [dictKeys, List.map_cons, List.nodup_cons] at h
      by_cases hk : hd.1 = k
      · simpa [dictInsert, hk, dictKeys, List.nodup_cons] using h
      · simp only [dictInsert, if_neg hk, dictKeys, List.map_cons, List.nodup_cons]
        refine ⟨fun hmem => ?_, ih h.2⟩
        rcases (mem_dictKeys_dictInsert tl hd.1 k v).mp hmem with rfl | h2
        · exact hk rfl
        · exact h.1 h2

theorem alookup_eq_some_of_mem {α β : Type} [DecidableEq α]
    (m : List (α × β)) (k : α) (v : β)
    (hnd : (dictKeys m).Nodup) (hmem : (k, v) ∈ m) :
    alookup m k = some v := by
  induction m with
  | nil => simp at hmem
  | cons hd tl ih =>
      simp only [dictKeys, List.map_cons, List.nodup_cons] at hnd
      rcases List.mem_cons.mp hmem with rfl | htl
      · simp [alookup]
      · have hk : hd.1 ≠ k := by
          intro h
          exact hnd.1 (h ▸ List.mem_map.mpr ⟨(k, v), htl, rfl⟩)
        simpa [alookup, hk] using ih hnd.2 htl

theorem pyDictOf_nodupKeys {α β : Type} [DecidableEq α] (l : List (α × β)) :
    (dictKeys (pyDictOf l)).Nodup := by
  have general : ∀ (l : List (α × β)) (m : List (α × β)), (dictKeys m).Nodup →
      (dictKeys (l.foldl (fun m p => dictInsert m p.1 p.2) m)).Nodup := by
    intro l
    induction l with
    | nil => intro m hm; simpa using hm
    | cons hd tl ih =>
        intro m hm
        exact ih _ (nodup_dictKeys_dictInsert m hd.1 hd.2 hm)
  simpa [pyDictOf] using general l [] (by simp [dictKeys])

/-! ## Differ lemmas -/

theorem compareSymbols_self (s : SymbolInfo) :
    PythonSemanticDiffer.compareSymbols s s = [] := by
  simp [PythonSemanticDiffer.compareSymbols]

theorem headLoop_id_of_lookup (filePath : String)
    (m : List ((String × SymbolKind × Option String) × SymbolInfo)) :
    ∀ (l : List ((String × SymbolKind × Option String) × SymbolInfo))
      (acc : List SymbolChange),
      (∀ p ∈ l, alookup m p.1 = some p.2) →
      l.foldl (PythonSemanticDiffer.headLoopStep filePath m) acc = acc := by
  intro l
  induction l with
  | nil => intro acc _; rfl
  | cons hd tl ih =>
      intro acc hl
      have hhd : alookup m hd.1 = some hd.2 := hl hd (List.mem_cons_self hd tl)
      have step : PythonSemanticDiffer.headLoopStep filePath m acc hd = acc := by
        simp [PythonSemanticDiffer.headLoopStep, hhd, compareSymbols_self]
      rw [List.foldl_cons, step]
      exact ih acc fun p hp => hl p (List.mem_cons_of_mem hd hp)

theorem baseLoop_id_of_lookup (filePath : String)
    (m : List ((String × SymbolKind × Option String) × SymbolInfo)) :
    ∀ (l : List ((String × SymbolKind × Option String) × SymbolInfo))
      (acc : List SymbolChange),
      (∀ p ∈ l, alookup m p.1 ≠ none) →
      l.foldl (PythonSemanticDiffer.baseLoopStep filePath m) acc = acc := by
  intro l
  induction l with
  | nil => intro acc _; rfl
  | cons hd tl ih =>
      intro acc hl
      have hhd : alookup m hd.1 ≠ none := hl hd (List.mem_cons_self hd tl)
      have step : PythonSemanticDiffer.baseLoopStep filePath m acc hd = acc := by
        simp [PythonSemanticDiffer.baseLoopStep, hhd]
      rw [List.foldl_cons, step]
      exact ih acc fun p hp => hl p (List.mem_cons_of_mem hd hp)

theorem diff_self (filePath : String) (symbols : List SymbolInfo) :
    PythonSemanticDiffer.diff filePath symbols symbols = [] := by
  show (pyDictOf (symbols.map fun s => (symbolKey s, s))).foldl
      (PythonSemanticDiffer.baseLoopStep filePath
        (pyDictOf (symbols.map fun s => (symbolKey s, s))))
      ((pyDictOf (symbols.map fun s => (symbolKey s, s))).foldl
        (PythonSemanticDiffer.headLoopStep filePath
          (pyDictOf (symbols.map fun s => (symbolKey s, s)))) []) = []
  have hlook : ∀ p ∈ pyDictOf (symbols.map fun s => (symbolKey s, s)),
      alookup (pyDictOf (symbols.map fun s => (symbolKey s, s))) p.1 = some p.2 := by
    intro p hp
    exact alookup_eq_some_of_mem _ p.1 p.2 (pyDictOf_nodupKeys _) (by simpa using hp)
  rw [headLoop_id_of_lookup filePath _ _ [] hlook,
      baseLoop_id_of_lookup filePath _ _ []
        (fun p hp => by simp [hlook p hp])]

/-- C10: pairing identical base and head record sets by
(name, kind, parent_class) yields no Added, Removed or Modified changes:
for every extracted record sequence `R`, `diff(file_path, R, R) = []`. -/
theorem diff_extract_identity (filePath : String) (tree : List Stmt) :
    PythonSemanticDiffer.diff filePath (extract tree) (extract tree) = [] :=
  diff_self filePath (extract tree)

/-- C9: base and head records pairing under the identity key and differing
only in the signature string produce exactly one Modified change with
descriptors exactly `["signature_change"]`; and the descriptors of any
modified pair are accumulated in the fixed order
[signature_change, docstring_change, decorator_change]. -/
theorem diff_signature_only_modified :
    (∀ (filePath : String) (b h : SymbolInfo),
      symbolKey b = symbolKey h →
      b.signature ≠ h.signature →
      b.docstring = h.docstring →
      b.decorators = h.decorators →
      PythonSemanticDiffer.diff filePath [b] [h] =
        [{ filePath := filePath, symbolName := h.name, kind := h.kind,
           changeType := .modified, descriptors := ["signature_change"],
           lineStart := h.lineStart, lineEnd := h.lineEnd }]) ∧
    ∀ (b h : SymbolInfo),
      (PythonSemanticDiffer.compareSymbols b h).Sublist
        ["signature_change", "docstring_change", "decorator_change"] := by
  constructor
  · intro filePath b h hkey hsig hdoc hdec
    show (pyDictOf ([b].map fun s => (symbolKey s, s))).foldl
        (PythonSemanticDiffer.baseLoopStep filePath
          (pyDictOf ([h].map fun s => (symbolKey s, s))))
        ((pyDictOf ([h].map fun s => (symbolKey s, s))).foldl
          (PythonSemanticDiffer.headLoopStep filePath
            (pyDictOf ([b].map fun s => (symbolKey s, s)))) []) = _
    simp [pyDictOf, dictInsert, PythonSemanticDiffer.headLoopStep,
          PythonSemanticDiffer.baseLoopStep, alookup, hkey,
          PythonSemanticDiffer.compareSymbols, hsig, hdoc, hdec]
  · intro b h
    unfold PythonSemanticDiffer.compareSymbols
    split <;> split <;> split <;> decide

/-- Witness for C9 at the parameter-rename pair `def f(x)` vs `def f(y)`
(the canonical signatures `f(x)` and `f(y)` differ exactly because
`_format_args` includes parameter names). -/
theorem diff_signature_only_modified_witness :
    symbolKey renameOnlyBase = symbolKey renameOnlyHead ∧
    renameOnlyBase.signature ≠ renameOnlyHead.signature ∧
    PythonSemanticDiffer.diff "foo.py" [renameOnlyBase] [renameOnlyHead] =
      [{ filePath := "foo.py", symbolName := renameOnlyHead.name,
         kind := renameOnlyHead.kind, changeType := .modified,
         descriptors := ["signature_change"],
         lineStart := renameOnlyHead.lineStart, lineEnd := renameOnlyHead.lineEnd }] :=
  ⟨by decide, by decide,
    diff_signature_only_modified.1 "foo.py" renameOnlyBase renameOnlyHead
      (by decide) (by decide) (by decide) (by decide)⟩

/-! ## Finding parser -/

/-- Counterexample to C7: the single-space response is non-empty, yet the
parser returns no finding — every block strips to fewer than 10 characters
and the fallback tests `response.strip()`, not `response`. -/
theorem parser_empty_on_whitespace :
    (" " : String) ≠ "" ∧ parseFindingsFromResponse " " "" "" = [] := by
  constructor
  · decide
  · rfl

/-- C7 amended: for every response with non-whitespace content
(`response.strip()` non-empty), the parser returns at least one finding. -/
theorem parser_totality_on_stripped :
    ∀ (response defaultFile defaultSymbol : String),
      pyStrip response ≠ "" →
      1 ≤ (parseFindingsFromResponse response defaultFile defaultSymbol).length := by
  intro response defaultFile defaultSymbol h
  by_cases hempty : (splitBlocks response).filterMap (parseBlock defaultFile defaultSymbol) = []
  · simp [parseFindingsFromResponse, hempty, h]
  · simp only [parseFindingsFromResponse]
    rw [if_neg (by simp [hempty])]
    exact Nat.one_le_iff_ne_zero.mpr fun h0 => hempty (List.length_eq_zero.mp h0)

/-- Witness for the amended C7 at a concrete response. -/
theorem parser_totality_on_stripped_witness :
    pyStrip "ok" ≠ "" ∧
    1 ≤ (parseFindingsFromResponse "ok" "" "").length :=
  ⟨by decide, parser_totality_on_stripped "ok" "" "" (by decide)⟩

/-! ## Graph store -/

/-- Counterexample to C8: after `add_edge(a, b, CALLS)` then
`add_edge(a, b, TESTS)` the store holds exactly one `a -> b` edge, typed
TESTS — the CALLS edge is gone, so it is not a multigraph. -/
theorem store_retypes_edge_counterexample :
    retypedEdgeStore.edges = [⟨"a", "b", .tests⟩] ∧
    GraphEdge.mk "a" "b" .calls ∉ retypedEdgeStore.edges := by
  constructor
  · rfl
  · decide

/-- C8 amended: the store is a *simple* typed directed graph: re-adding an
edge between the same endpoints replaces the earlier edge's type, so after
the two insertions exactly one edge (with the later type) joins the
pair. -/
theorem store_addEdge_retypes :
    ∀ (na nb : GraphNode) (t1 t2 : EdgeType),
      (((((GraphStore.mk [] []).addNode na).addNode nb).addEdge
          ⟨na.id, nb.id, t1⟩).addEdge ⟨na.id, nb.id, t2⟩).edges =
        [⟨na.id, nb.id, t2⟩] := by
  intro na nb t1 t2
  by_cases h : na.id = nb.id <;>
    simp [GraphStore.addNode, GraphStore.addEdge, dictInsert, alookup,
          updateEdgeList, h]

/-! ## Graph builder: acceptance fixture (d) -/

/-- Supporting theorem for C2 (a code bug): on the head worktree
`{foo.py, test_foo.py}` where `test_foo.py` is exactly
`from foo import foo`, the built graph marks `test_foo` with
`is_test_file = true` and also contains the `foo` module — but no Tests
edge at all (in particular none from `test_foo` to `foo`): the Tests-edge
block sits inside the per-symbol loop and the import-only test file yields
no symbols.  (The import is still seen: the module-level Imports edge
`test_foo -> foo` is present.) -/
theorem builder_no_tests_edge_on_import_only_test_file :
    (fixtureStore.getNode "test_foo").map (fun n => n.extra.isTestFile) = some true ∧
    (fixtureStore.getNode "foo").isSome ∧
    fixtureStore.edges.all (fun e => e.type != EdgeType.tests) = true ∧
    fixtureStore.edges = [⟨"foo.py::foo", "foo", .imports⟩, ⟨"test_foo", "foo", .imports⟩] := by
  exact ⟨by decide, by decide, by decide, by decide⟩

/-! ## Symbol extractor -/

mutual

theorem visitStmt_currentClass : ∀ (s : Stmt) (st : VisitorState),
    (visitStmt st s).currentClass = st.currentClass
  | .functionDef _ _ body _ _ _, st => by
      simp only [visitStmt]
      exact visitStmts_currentClass body _
  | .classDef _ _ _ _ _ _, st => by
      simp only [visitStmt]
  | .assign _ _ _ _, st => by
      simp only [visitStmt]
      split <;> rfl
  | .importStmt _, _ => rfl
  | .importFrom _ _, _ => rfl
  | .exprStr _, _ => rfl
  | .ret _, _ => rfl
  | .other _ children, st => visitStmts_currentClass children st
termination_by structural s => s

theorem visitStmts_currentClass : ∀ (l : List Stmt) (st : VisitorState),
    (visitStmts st l).currentClass = st.currentClass
  | [], _ => rfl
  | s :: rest, st => by
      simp only [visitStmts]
      rw [visitStmts_currentClass rest _, visitStmt_currentClass s st]
termination_by structural l => l

end

theorem countConstants_append_nonconstant (l : List SymbolInfo) (r : SymbolInfo)
    (h : (r.kind == SymbolKind.constant) = false) :
    countConstants (l ++ [r]) = countConstants l := by
  simp [countConstants, List.countP_append, List.countP_cons, h]

mutual

theorem visitStmt_inClass_noConstants : ∀ (s : Stmt) (st : VisitorState),
    st.currentClass.isSome = true →
    countConstants (visitStmt st s).symbols = countConstants st.symbols
  | .functionDef _ _ body _ _ _, st, h => by
      simp only [visitStmt]
      refine (visitStmts_inClass_noConstants body _ ?_).trans ?_
      · exact h
      · refine countConstants_append_nonconstant _ _ ?_
        show ((if st.currentClass.isSome then SymbolKind.method else SymbolKind.function) ==
            SymbolKind.constant) = false
        rw [if_pos h]
        decide
  | .classDef _ _ body _ _ _, st, _ => by
      simp only [visitStmt]
      refine (visitStmts_inClass_noConstants body _ ?_).trans ?_
      · rfl
      · exact countConstants_append_nonconstant _ _ rfl
  | .assign _ _ _ _, st, h => by
      simp [visitStmt, h]
  | .importStmt _, _, _ => rfl
  | .importFrom _ _, _, _ => rfl
  | .exprStr _, _, _ => rfl
  | .ret _, _, _ => rfl
  | .other _ children, st, h => visitStmts_inClass_noConstants children st h
termination_by structural s => s

theorem visitStmts_inClass_noConstants : ∀ (l : List Stmt) (st : VisitorState),
    st.currentClass.isSome = true →
    countConstants (visitStmts st l).symbols = countConstants st.symbols
  | [], _, _ => rfl
  | s :: rest, st, h => by
      simp only [visitStmts]
      refine (visitStmts_inClass_noConstants rest _ ?_).trans
        (visitStmt_inClass_noConstants s st h)
      rw [visitStmt_currentClass s st]
      exact h
termination_by structural l => l

end

/-- Counterexample to C6 as stated: an assignment nested inside the body of
a top-level function *does* produce a Constant record — `def f(): x = 1`
extracts both the function `f` and a Constant `x`. -/
theorem extractor_emits_constant_in_function_body :
    (extract defWithNestedAssign).map (fun s => (s.name, s.kind)) =
      [("f", SymbolKind.function), ("x", SymbolKind.constant)] := by decide

/-- C6 amended: a Constant record is emitted exactly when no enclosing
class is being visited — visiting a class definition adds no Constant
records for its (arbitrarily nested) body, while an unbound single-name
assignment nested in a top-level function body does emit one. -/
theorem extractor_constant_scope :
    (∀ (st : VisitorState) (name : String) (bases : List String)
       (body : List Stmt) (decoratorList : List String) (lineno endLineno : Nat),
       countConstants
           (visitStmt st (.classDef name bases body decoratorList lineno endLineno)).symbols =
         countConstants st.symbols) ∧
    countConstants (extract defWithNestedAssign) = 1 := by
  constructor
  · intro st name bases body decoratorList lineno endLineno
    simp only [visitStmt]
    refine (visitStmts_inClass_noConstants body _ ?_).trans ?_
    · rfl
    · exact countConstants_append_nonconstant _ _ rfl
  · decide

/-! ## Retrieval: auxiliary dictionary lemmas -/

theorem alookup_eq_none_of_not_mem {α β : Type} [DecidableEq α]
    (m : List (α × β)) (k : α) (h : k ∉ dictKeys m) : alookup m k = none := by
  induction m with
  | nil => rfl
  | cons hd tl ih =>
      simp only [dictKeys, List.map_cons, List.mem_cons, not_or] at h
      have hne : ¬(hd.1 = k) := fun he => h.1 he.symm
      show (if hd.1 = k then some hd.2 else alookup tl k) = none
      rw [if_neg hne]
      exact ih h.2

theorem dictInsert_eq_append_of_not_mem {α β : Type} [DecidableEq α]
    (m : List (α × β)) (k : α) (v : β) (h : k ∉ dictKeys m) :
    dictInsert m k v = m ++ [(k, v)] := by
  induction m with
  | nil => rfl
  | cons hd tl ih =>
      simp only [dictKeys, List.map_cons, List.mem_cons, not_or] at h
      have hne : ¬(hd.1 = k) := fun he => h.1 he.symm
      show (if hd.1 = k then (hd.1, v) :: tl else (hd.1, hd.2) :: dictInsert tl k v) =
        (hd :: tl) ++ [(k, v)]
      rw [if_neg hne, ih h.2]
      rfl

theorem mem_of_alookup_eq_some {α β : Type} [DecidableEq α]
    (m : List (α × β)) (k : α) (v : β) (h : alookup m k = some v) : (k, v) ∈ m := by
  induction m with
  | nil => simp [alookup] at h
  | cons hd tl ih =>
      rw [show alookup (hd :: tl) k =
            (if hd.1 = k then some hd.2 else alookup tl k) from rfl] at h
      by_cases he : hd.1 = k
      · rw [if_pos he] at h
        cases h
        subst he
        exact List.mem_cons_self _ _
      · rw [if_neg he] at h
        exact List.mem_cons_of_mem hd (ih h)

theorem fst_eq_or_mem_of_mem_dictInsert {α β : Type} [DecidableEq α]
    (m : List (α × β)) (k : α) (v : β) (p : α × β)
    (h : p ∈ dictInsert m k v) : p ∈ m ∨ p.1 = k := by
  induction m with
  | nil =>
      simp only [dictInsert, List.mem_singleton] at h
      right
      rw [h]
  | cons hd tl ih =>
      rw [show dictInsert (hd :: tl) k v =
            (if hd.1 = k then (hd.1, v) :: tl else (hd.1, hd.2) :: dictInsert tl k v)
          from rfl] at h
      by_cases he : hd.1 = k
      · rw [if_pos he] at h
        rcases List.mem_cons.mp h with rfl | h
        · right; exact he
        · left; exact List.mem_cons_of_mem hd h
      · rw [if_neg he] at h
        rcases List.mem_cons.mp h with rfl | h
        · left
          exact List.mem_cons_self _ _
        · rcases ih h with h2 | h2
          · left; exact List.mem_cons_of_mem hd h2
          · right; exact h2

theorem mem_setOfIds (x : String) (l : List String) :
    x ∈ RelevantContextFinder.setOfIds l ↔ x ∈ l := by
  have general : ∀ (l acc : List String),
      x ∈ l.foldl (fun acc nid => if nid ∈ acc then acc else acc ++ [nid]) acc ↔
        x ∈ acc ∨ x ∈ l := by
    intro l
    induction l with
    | nil => intro acc; simp
    | cons hd tl ih =>
        intro acc
        rw [List.foldl_cons, ih]
        by_cases h : hd ∈ acc
        · rw [if_pos h]
          simp only [List.mem_cons]
          constructor
          · rintro (hx | hx) <;> tauto
          · rintro (hx | (rfl | hx)) <;> tauto
        · rw [if_neg h]
          simp only [List.mem_append, List.mem_singleton, List.mem_cons]
          tauto
  simpa [RelevantContextFinder.setOfIds] using general l []

/-! ## Retrieval: scores keys are preserved by the BFS -/

namespace RelevantContextFinder

theorem mem_scores_visitNeighbor (w : ℚ) (t : EdgeType) (depth : Nat)
    (st : BfsState) (vid k : String) (h : k ∈ dictKeys st.scores) :
    k ∈ dictKeys (visitNeighbor w t depth st vid).scores := by
  unfold visitNeighbor
  split
  · exact h
  · exact (mem_dictKeys_dictInsert _ _ _ _).mpr (Or.inr h)

theorem mem_scores_neighbors_foldl (w : ℚ) (t : EdgeType) (depth : Nat) :
    ∀ (l : List String) (st : BfsState) (k : String), k ∈ dictKeys st.scores →
      k ∈ dictKeys ((l.foldl (visitNeighbor w t depth) st).scores) := by
  intro l
  induction l with
  | nil => intro st k h; exact h
  | cons hd tl ih =>
      intro st k h
      exact ih _ k (mem_scores_visitNeighbor w t depth st hd k h)

theorem mem_scores_visitEdgeType (store : GraphStore) (cfg : RetrievalConfig)
    (nodeId : String) (depth : Nat) (st : BfsState) (t : EdgeType) (k : String)
    (h : k ∈ dictKeys st.scores) :
    k ∈ dictKeys ((visitEdgeType store cfg nodeId depth st t).scores) := by
  unfold visitEdgeType
  split
  · exact h
  · exact mem_scores_neighbors_foldl _ _ _ _ _ k
      (mem_scores_neighbors_foldl _ _ _ _ _ k h)

theorem mem_scores_edgeTypes_foldl (store : GraphStore) (cfg : RetrievalConfig)
    (nodeId : String) (depth : Nat) :
    ∀ (ts : List EdgeType) (st : BfsState) (k : String), k ∈ dictKeys st.scores →
      k ∈ dictKeys ((ts.foldl (visitEdgeType store cfg nodeId depth) st).scores) := by
  intro ts
  induction ts with
  | nil => intro st k h; exact h
  | cons hd tl ih =>
      intro st k h
      exact ih _ k (mem_scores_visitEdgeType store cfg nodeId depth st hd k h)

theorem mem_scores_bfsLoop (store : GraphStore) (cfg : RetrievalConfig) :
    ∀ (fuel : Nat) (st : BfsState) (k : String), k ∈ dictKeys st.scores →
      k ∈ dictKeys ((bfsLoop store cfg fuel st).scores) := by
  intro fuel
  induction fuel with
  | zero => intro st k h; exact h
  | succ n ih =>
      intro st k h
      obtain ⟨queue, seen, scores⟩ := st
      cases queue with
      | nil => exact h
      | cons entry rest =>
          obtain ⟨nodeId, depth, te⟩ := entry
          rw [show bfsLoop store cfg (n + 1) ⟨(nodeId, depth, te) :: rest, seen, scores⟩ =
                (match store.getNode nodeId with
                 | none => bfsLoop store cfg n ⟨rest, seen, scores⟩
                 | some _ => bfsLoop store cfg n
                     (EdgeType.all.foldl (visitEdgeType store cfg nodeId depth)
                       ⟨rest, seen, scores⟩)) from rfl]
          cases hn : store.getNode nodeId with
          | none => exact ih _ k h
          | some _ =>
              exact ih _ k (mem_scores_edgeTypes_foldl store cfg nodeId depth _ _ k h)

theorem mem_scores_initial (seeds : List String) (k : String) (h : k ∈ seeds) :
    k ∈ dictKeys (initialBfsState seeds).scores := by
  have general : ∀ (l : List String) (m : List (String × ℚ)),
      k ∈ l ∨ k ∈ dictKeys m →
      k ∈ dictKeys (l.foldl (fun m nid => dictInsert m nid 2) m) := by
    intro l
    induction l with
    | nil =>
        intro m hm
        rcases hm with hm | hm
        · simp at hm
        · exact hm
    | cons hd tl ih =>
        intro m hm
        rw [List.foldl_cons]
        rcases hm with hm | hm
        · rcases List.mem_cons.mp hm with rfl | hm
          · exact ih _ (Or.inr ((mem_dictKeys_dictInsert m k k 2).mpr (Or.inl rfl)))
          · exact ih _ (Or.inl hm)
        · exact ih _ (Or.inr ((mem_dictKeys_dictInsert m k hd 2).mpr (Or.inr hm)))
  exact general seeds [] (Or.inl h)

theorem mem_dictKeys_bfsScores (store : GraphStore) (cfg : RetrievalConfig)
    (changedNodeIds : List String) (nid : String) (h : nid ∈ changedNodeIds) :
    nid ∈ dictKeys (bfsScores store cfg changedNodeIds) :=
  mem_scores_bfsLoop store cfg _ _ nid
    (mem_scores_initial _ nid ((mem_setOfIds nid changedNodeIds).mpr h))

theorem dictKeys_applyBonuses (store : GraphStore) (scores : List (String × ℚ)) :
    dictKeys (applyBonuses store scores) = dictKeys scores := by
  unfold applyBonuses dictKeys
  rw [List.map_map]
  exact List.map_congr_left fun p _ => rfl

theorem mem_insertByScore (x y : String × ℚ) (l : List (String × ℚ)) :
    x ∈ insertByScore y l ↔ x = y ∨ x ∈ l := by
  induction l with
  | nil => simp [insertByScore]
  | cons hd tl ih =>
      unfold insertByScore
      split
      · rw [List.mem_cons, ih, List.mem_cons]
        tauto
      · simp only [List.mem_cons]

theorem mem_sortDescByScore (x : String × ℚ) (l : List (String × ℚ)) :
    x ∈ sortDescByScore l ↔ x ∈ l := by
  induction l with
  | nil => simp [sortDescByScore]
  | cons hd tl ih =>
      unfold sortDescByScore
      rw [mem_insertByScore, ih, List.mem_cons]

/-- C5 amended, part of the retrieval ranking: every seed id (known to the
store or not) appears in the pre-truncation ranking of `find`, and hence in
`find(seeds)` itself whenever `max_nodes_per_unit` is at least the length
of that ranking.  (The original claim fails because a non-seed can outscore
a seed: see the counterexample.) -/
theorem find_contains_seeds :
    (∀ (store : GraphStore) (cfg : RetrievalConfig) (changedNodeIds : List String)
       (nid : String), nid ∈ changedNodeIds →
       nid ∈ rankedNodeIds store cfg changedNodeIds) ∧
    ∀ (store : GraphStore) (cfg : RetrievalConfig) (changedNodeIds : List String)
      (nid : String), nid ∈ changedNodeIds →
      (rankedNodeIds store cfg changedNodeIds).length ≤ cfg.maxNodesPerUnit →
      nid ∈ find store cfg changedNodeIds := by
  have ranked : ∀ (store : GraphStore) (cfg : RetrievalConfig)
      (changedNodeIds : List String) (nid : String), nid ∈ changedNodeIds →
      nid ∈ rankedNodeIds store cfg changedNodeIds := by
    intro store cfg changedNodeIds nid h
    have hk : nid ∈ dictKeys (applyBonuses store (bfsScores store cfg changedNodeIds)) := by
      rw [dictKeys_applyBonuses]
      exact mem_dictKeys_bfsScores store cfg changedNodeIds nid h
    rcases List.mem_map.mp hk with ⟨p, hp, hfst⟩
    exact List.mem_map.mpr ⟨p, (mem_sortDescByScore p _).mpr hp, hfst⟩
  refine ⟨ranked, ?_⟩
  intro store cfg changedNodeIds nid h hlen
  have hne : ¬changedNodeIds.isEmpty = true := by
    cases changedNodeIds with
    | nil => cases h
    | cons hd tl => simp [List.isEmpty]
  unfold find
  rw [if_neg hne, List.take_of_length_le hlen]
  exact ranked store cfg changedNodeIds nid h

end RelevantContextFinder

/-- Counterexample to C5: in `testHotspotStore` with
`max_nodes_per_unit = 1` (not smaller than the single seed), the seed `a`
is known to the store yet absent from `find(["a"])` — the test-module
hotspot `t` scores 1.5 + 0.5 + 0.3 = 2.3, above the seed bonus 2.0, and
takes the single slot. -/
theorem find_drops_seed_counterexample :
    (testHotspotStore.getNode "a").isSome = true ∧
    ["a"].length ≤ capOneConfig.maxNodesPerUnit ∧
    RelevantContextFinder.find testHotspotStore capOneConfig ["a"] = ["t"] ∧
    "a" ∉ RelevantContextFinder.find testHotspotStore capOneConfig ["a"] := by
  have hfind : RelevantContextFinder.find testHotspotStore capOneConfig ["a"] = ["t"] := by
    with_unfolding_all rfl
  refine ⟨by decide, by decide, hfind, ?_⟩
  rw [hfind]
  decide

/-- Witness for the amended C5 at the same store under the default
configuration, where nothing is truncated. -/
theorem find_contains_seeds_witness :
    "a" ∈ ["a"] ∧
    (RelevantContextFinder.rankedNodeIds testHotspotStore {} ["a"]).length ≤
      ({} : RetrievalConfig).maxNodesPerUnit ∧
    "a" ∈ RelevantContextFinder.find testHotspotStore {} ["a"] := by
  have hlen : (RelevantContextFinder.rankedNodeIds testHotspotStore {} ["a"]).length = 5 := by
    with_unfolding_all rfl
  refine ⟨by decide, by rw [hlen]; decide, ?_⟩
  exact RelevantContextFinder.find_contains_seeds.2 testHotspotStore {} ["a"] "a"
    (by decide) (by rw [hlen]; decide)

/-! ## Retrieval: non-seed scores carry a single contribution -/

namespace RelevantContextFinder

theorem inv_visitNeighbor (cfg : RetrievalConfig) (seeds : List String)
    (t : EdgeType) (depth : Nat) (st : BfsState) (vid : String)
    (h : ScoreInvariant cfg seeds st) :
    ScoreInvariant cfg seeds (visitNeighbor (weight cfg t) t depth st vid) := by
  obtain ⟨h1, h2, h3⟩ := h
  unfold visitNeighbor
  split
  · exact ⟨h1, h2, h3⟩
  case isFalse hseen =>
    have hkeys : vid ∉ dictKeys st.scores := fun hk => hseen (h1 vid hk)
    have hget : scoreGet st.scores vid = 0 := by
      unfold scoreGet
      rw [alookup_eq_none_of_not_mem _ _ hkeys]
      rfl
    have hins : dictInsert st.scores vid
          (scoreGet st.scores vid + weight cfg t / ((depth : ℚ) + 1)) =
        st.scores ++ [(vid, scoreGet st.scores vid + weight cfg t / ((depth : ℚ) + 1))] :=
      dictInsert_eq_append_of_not_mem _ _ _ hkeys
    refine ⟨?_, ?_, ?_⟩
    · intro k hk
      simp only [hins, dictKeys, List.map_append, List.mem_append,
                 List.map_cons, List.map_nil, List.mem_singleton] at hk
      rcases hk with hk | hk
      · exact List.mem_append_left _ (h1 k hk)
      · exact List.mem_append_right _ (by simp [hk])
    · intro s hs
      exact List.mem_append_left _ (h2 s hs)
    · intro p hp hnot
      simp only [hins, List.mem_append, List.mem_singleton] at hp
      rcases hp with hp | hp
      · exact h3 p hp hnot
      · subst hp
        exact ⟨t, depth, by rw [hget, zero_add]⟩

theorem inv_neighbors_foldl (cfg : RetrievalConfig) (seeds : List String)
    (t : EdgeType) (depth : Nat) :
    ∀ (l : List String) (st : BfsState), ScoreInvariant cfg seeds st →
      ScoreInvariant cfg seeds (l.foldl (visitNeighbor (weight cfg t) t depth) st) := by
  intro l
  induction l with
  | nil => intro st h; exact h
  | cons hd tl ih =>
      intro st h
      exact ih _ (inv_visitNeighbor cfg seeds t depth st hd h)

theorem inv_visitEdgeType (cfg : RetrievalConfig) (seeds : List String)
    (store : GraphStore) (nodeId : String) (depth : Nat) (st : BfsState)
    (t : EdgeType) (h : ScoreInvariant cfg seeds st) :
    ScoreInvariant cfg seeds (visitEdgeType store cfg nodeId depth st t) := by
  unfold visitEdgeType
  split
  · exact h
  · exact inv_neighbors_foldl cfg seeds t depth _ _
      (inv_neighbors_foldl cfg seeds t depth _ _ h)

theorem inv_edgeTypes_foldl (cfg : RetrievalConfig) (seeds : List String)
    (store : GraphStore) (nodeId : String) (depth : Nat) :
    ∀ (ts : List EdgeType) (st : BfsState), ScoreInvariant cfg seeds st →
      ScoreInvariant cfg seeds (ts.foldl (visitEdgeType store cfg nodeId depth) st) := by
  intro ts
  induction ts with
  | nil => intro st h; exact h
  | cons hd tl ih =>
      intro st h
      exact ih _ (inv_visitEdgeType cfg seeds store nodeId depth st hd h)

theorem inv_bfsLoop (cfg : RetrievalConfig) (seeds : List String)
    (store : GraphStore) :
    ∀ (fuel : Nat) (st : BfsState), ScoreInvariant cfg seeds st →
      ScoreInvariant cfg seeds (bfsLoop store cfg fuel st) := by
  intro fuel
  induction fuel with
  | zero => intro st h; exact h
  | succ n ih =>
      intro st h
      obtain ⟨queue, seen, scores⟩ := st
      cases queue with
      | nil => exact h
      | cons entry rest =>
          obtain ⟨nodeId, depth, te⟩ := entry
          rw [show bfsLoop store cfg (n + 1) ⟨(nodeId, depth, te) :: rest, seen, scores⟩ =
                (match store.getNode nodeId with
                 | none => bfsLoop store cfg n ⟨rest, seen, scores⟩
                 | some _ => bfsLoop store cfg n
                     (EdgeType.all.foldl (visitEdgeType store cfg nodeId depth)
                       ⟨rest, seen, scores⟩)) from rfl]
          have hrest : ScoreInvariant cfg seeds ⟨rest, seen, scores⟩ := h
          cases hn : store.getNode nodeId with
          | none => exact ih _ hrest
          | some _ =>
              exact ih _ (inv_edgeTypes_foldl cfg seeds store nodeId depth _ _ hrest)

theorem entries_initial_scores (seeds : List String) :
    ∀ p ∈ (initialBfsState seeds).scores, p.1 ∈ seeds := by
  have general : ∀ (l : List String) (m : List (String × ℚ)) (p : String × ℚ),
      p ∈ l.foldl (fun m nid => dictInsert m nid 2) m → p ∈ m ∨ p.1 ∈ l := by
    intro l
    induction l with
    | nil => intro m p hp; exact Or.inl hp
    | cons hd tl ih =>
        intro m p hp
        rw [List.foldl_cons] at hp
        rcases ih _ p hp with hp2 | hp2
        · rcases fst_eq_or_mem_of_mem_dictInsert m hd 2 p hp2 with hp3 | hp3
          · exact Or.inl hp3
          · exact Or.inr (by simp [hp3])
        · exact Or.inr (List.mem_cons_of_mem hd hp2)
  intro p hp
  rcases general seeds [] p hp with hp2 | hp2
  · cases hp2
  · exact hp2

theorem inv_initial (cfg : RetrievalConfig) (seeds : List String) :
    ScoreInvariant cfg seeds (initialBfsState seeds) := by
  refine ⟨?_, ?_, ?_⟩
  · intro k hk
    rcases List.mem_map.mp hk with ⟨p, hp, hfst⟩
    have := entries_initial_scores seeds p hp
    rw [← hfst]
    exact this
  · intro s hs
    exact hs
  · intro p hp hnot
    exact absurd (entries_initial_scores seeds p hp) hnot

/-- C3 amended: in the BFS of `find`, the score of every non-seed node is
the single contribution `weight(t) / (depth + 1)` of the one edge that
first discovered it — contributions of further reaching edge types are
discarded by the `seen` guard, not summed. -/
theorem bfs_score_single_contribution :
    ∀ (store : GraphStore) (cfg : RetrievalConfig) (changedNodeIds : List String)
      (nid : String) (q : ℚ),
      nid ∉ changedNodeIds →
      alookup (bfsScores store cfg changedNodeIds) nid = some q →
      ∃ (t : EdgeType) (d : Nat), q = weight cfg t / ((d : ℚ) + 1) := by
  intro store cfg changedNodeIds nid q hnot hlook
  have hmem : (nid, q) ∈ bfsScores store cfg changedNodeIds :=
    mem_of_alookup_eq_some _ _ _ hlook
  have hinv : ScoreInvariant cfg (setOfIds changedNodeIds)
      (bfsLoop store cfg
        (store.nodes.length + (setOfIds changedNodeIds).length + 1)
        (initialBfsState (setOfIds changedNodeIds))) :=
    inv_bfsLoop cfg (setOfIds changedNodeIds) store _ _
      (inv_initial cfg (setOfIds changedNodeIds))
  exact hinv.2.2 (nid, q) hmem
    (fun hs => hnot ((mem_setOfIds nid changedNodeIds).mp hs))

end RelevantContextFinder

/-- Counterexample to C3: in `dualReachStore` the node `b` is reached from
the seed `a` at depth 0 over both CALLS (outgoing) and TESTS (incoming),
yet its BFS score is the CALLS contribution alone (1.0), not the claimed
sum 1.0 + 1.5 = 2.5 of both contributions. -/
theorem bfs_no_accumulation_counterexample :
    alookup (RelevantContextFinder.bfsScores dualReachStore {} ["a"]) "b" = some 1 ∧
    (1 : ℚ) ≠ RelevantContextFinder.weight {} .calls / (0 + 1) +
      RelevantContextFinder.weight {} .tests / (0 + 1) := by
  constructor
  · with_unfolding_all rfl
  · norm_num [RelevantContextFinder.weight, defaultWeights]

/-- Witness for the amended C3 at `dualReachStore`. -/
theorem bfs_score_single_contribution_witness :
    "b" ∉ ["a"] ∧
    alookup (RelevantContextFinder.bfsScores dualReachStore {} ["a"]) "b" = some 1 ∧
    ∃ (t : EdgeType) (d : Nat),
      (1 : ℚ) = RelevantContextFinder.weight {} t / ((d : ℚ) + 1) := by
  have hl : alookup (RelevantContextFinder.bfsScores dualReachStore {} ["a"]) "b" =
      some 1 := by with_unfolding_all rfl
  exact ⟨by decide, hl,
    RelevantContextFinder.bfs_score_single_contribution dualReachStore {} ["a"] "b" 1
      (by decide) hl⟩

/-! ## Review pipeline -/

/-- Supporting theorem for C1 (a code bug): `ReviewOrchestrator` has no
attribute `run_per_unit`, so on any input that passes the fail-fast stages
with `review_mode = "per_unit"` the pipeline raises `AttributeError`
instead of dispatching per-unit LLM calls and returning
`status = "completed"`. -/
theorem pipeline_per_unit_raises :
    "run_per_unit" ∉ reviewOrchestratorAttrs ∧
    ∀ (fcs : List FileChange) (checkout : Except String Unit)
      (scs : List SymbolChange) (llm : Except String String),
      fcs ≠ [] → checkout = .ok () → scs ≠ [] →
      runPipeline { fileChanges := .ok fcs, checkout := checkout,
                    symbolChanges := scs, reviewMode := "per_unit",
                    llmComplete := llm } = .error runPerUnitAttributeError := by
  refine ⟨by decide, ?_⟩
  intro fcs checkout scs llm hfcs hco hscs
  subst hco
  have hlen : ¬(fcs.length = 0) := fun h0 => hfcs (List.length_eq_zero.mp h0)
  have hslen : ¬(scs.length = 0) := fun h0 => hscs (List.length_eq_zero.mp h0)
  simp only [runPipeline]
  rw [if_neg hlen, if_neg hslen]
  rfl

/-- Witness for C1 at a concrete environment. -/
theorem pipeline_per_unit_raises_witness :
    envPerUnit.reviewMode = "per_unit" ∧
    runPipeline envPerUnit = .error runPerUnitAttributeError :=
  ⟨rfl,
    pipeline_per_unit_raises.2 [sampleFileChange] (.ok ()) [sampleSymbolChange]
      (.ok "looks fine") (by decide) rfl (by decide)⟩

/-- Supporting theorem for C4 (a code bug): on an input with no file
changes, `run_pipeline` returns a tuple of three components — not the
5-tuple its annotation declares and its caller (`main.run_review`)
unpacks.  The same 3-component shape is returned by the `get_file_changes`
failure path. -/
theorem pipeline_early_returns_are_triples :
    runPipeline envNoChanges =
      .ok [.str "No file changes between base and head.", .findings [], .str "completed"] ∧
    (∀ t, runPipeline envNoChanges = .ok t → t.length = 3) ∧
    ∀ (e : String) (checkout : Except String Unit) (scs : List SymbolChange)
      (mode : String) (llm : Except String String) (t : List PyVal),
      runPipeline { fileChanges := .error e, checkout := checkout,
                    symbolChanges := scs, reviewMode := mode,
                    llmComplete := llm } = .ok t → t.length = 3 := by
  refine ⟨by rfl, ?_, ?_⟩
  · intro t h
    have : runPipeline envNoChanges =
        .ok [.str "No file changes between base and head.", .findings [], .str "completed"] := by rfl
    rw [this] at h
    cases h
    rfl
  · intro e checkout scs mode llm t h
    simp only [runPipeline] at h
    cases h
    rfl

/-- Witness for C4's universally quantified part at a concrete failing
environment. -/
theorem pipeline_early_returns_are_triples_witness :
    ∃ t, runPipeline { fileChanges := .error "boom", checkout := .ok (),
                       symbolChanges := [], reviewMode := "batched",
                       llmComplete := .ok "fine" } = .ok t ∧ t.length = 3 :=
  ⟨[.str "Failed to get file changes: boom", .findings [], .str "failed"], rfl,
    pipeline_early_returns_are_triples.2.2 "boom" (.ok ()) [] "batched" (.ok "fine")
      [.str "Failed to get file changes: boom", .findings [], .str "failed"] rfl⟩

